import Mathlib

/-!
# A verification development for the `coral` diagnostics tool

This file gives a shallow embedding of the core of the `coral` repository
(`src/lib.rs`, `src/main.rs`) and proves properties of it.

Modelling conventions:
* Rust `usize` values are modelled as `Nat` (no claim exercises overflow).
* Byte streams are modelled as `List Nat` (one `Nat` per byte; the newline
  byte is `10`).
* Rust `String`/`PathBuf` are modelled as Lean `String`, with the byte-level
  operations of the source (`len`, slicing) modelled at character
  granularity; every concrete input used below is ASCII, where the two
  coincide.
* JSON decoding (`serde_json::from_slice`) is an external library; it is
  abstracted as a parameter `parse : List Nat → Option Entry`, where `none`
  models a decode failure (which the source turns into a panic via
  `.unwrap()`).
* The process-wide color override of the `colored` crate is modelled as an
  explicit `color : Bool` parameter threaded through the formatting
  functions.
* The filesystem is modelled as a partial map `String → Option String` from
  file names to contents.
-/

/-! ## Diagnostic data model (src/lib.rs) -/

/-- `Checker` from src/lib.rs: a way of checking a project. -/
inductive Checker where
  | Check
  | Clippy
deriving DecidableEq

/-- `Reason` from src/lib.rs: a reason output by cargo. -/
inductive Reason where
  | CompilerArtifact
  | CompilerMessage
  | BuildScriptExecuted
deriving DecidableEq

/-- `TargetKind` from src/lib.rs. -/
inductive TargetKind where
  | Lib
  | Bin
  | CustomBuild
  | ProcMacro
deriving DecidableEq

/-- `CrateType` from src/lib.rs. -/
inductive CrateType where
  | Lib
  | Bin
  | ProcMacro
deriving DecidableEq

/-- `Target` from src/lib.rs: target information output by cargo. -/
structure Target where
  kind : List TargetKind
  crate_types : List CrateType
  name : String
  src_path : String
  edition : String
deriving DecidableEq

/-- `Profile` from src/lib.rs: a profile output by cargo. -/
structure Profile where
  opt_level : String
  debuginfo : Nat
  debug_assertions : Bool
  overflow_checks : Bool
  test : Bool
deriving DecidableEq

/-- `Code` from src/lib.rs: a code output by cargo. -/
structure Code where
  code : String
  explanation : Option String
deriving DecidableEq

/-- `Level` from src/lib.rs: a message severity level output by cargo.
The serde-renamed empty string variant is `Level.none`. -/
inductive Level where
  | none
  | note
  | help
  | warning
  | error
deriving DecidableEq

/-- `Text` from src/lib.rs: a piece of text output by cargo. -/
structure Text where
  text : String
  highlight_start : Nat
  highlight_end : Nat
deriving DecidableEq

/-- Shape functor for `Expansion` from src/lib.rs (a macro expansion output
by cargo); the parameter stands for `Span`, which is mutually recursive with
it in the source (`expansion: Option<Box<Expansion>>` inside `Span`).
The source field `macro_decl_name` is called `declName` here. -/
structure ExpansionF (S : Type) where
  span : S
  declName : String
  def_site_span : Option S

/-- `Span` from src/lib.rs: a span output by cargo. Field order follows the
source: file_name, byte_start, byte_end, line_start, line_end, column_start,
column_end, is_primary, text, label, suggested_replacement,
suggestion_applicability, expansion. -/
inductive Span where
  | mk
    (file_name : String)
    (byte_start : Nat)
    (byte_end : Nat)
    (line_start : Nat)
    (line_end : Nat)
    (column_start : Nat)
    (column_end : Nat)
    (is_primary : Bool)
    (text : List Text)
    (label : Option String)
    (suggested_replacement : Option String)
    (suggestion_applicability : Option String)
    (expansion : Option (ExpansionF Span))

def Span.file_name : Span → String
  | .mk x _ _ _ _ _ _ _ _ _ _ _ _ => x

def Span.byte_start : Span → Nat
  | .mk _ x _ _ _ _ _ _ _ _ _ _ _ => x

def Span.byte_end : Span → Nat
  | .mk _ _ x _ _ _ _ _ _ _ _ _ _ => x

def Span.line_start : Span → Nat
  | .mk _ _ _ x _ _ _ _ _ _ _ _ _ => x

def Span.line_end : Span → Nat
  | .mk _ _ _ _ x _ _ _ _ _ _ _ _ => x

def Span.column_start : Span → Nat
  | .mk _ _ _ _ _ x _ _ _ _ _ _ _ => x

def Span.column_end : Span → Nat
  | .mk _ _ _ _ _ _ x _ _ _ _ _ _ => x

def Span.is_primary : Span → Bool
  | .mk _ _ _ _ _ _ _ x _ _ _ _ _ => x

def Span.text : Span → List Text
  | .mk _ _ _ _ _ _ _ _ x _ _ _ _ => x

def Span.label : Span → Option String
  | .mk _ _ _ _ _ _ _ _ _ x _ _ _ => x

def Span.suggested_replacement : Span → Option String
  | .mk _ _ _ _ _ _ _ _ _ _ x _ _ => x

def Span.suggestion_applicability : Span → Option String
  | .mk _ _ _ _ _ _ _ _ _ _ _ x _ => x

def Span.expansion : Span → Option (ExpansionF Span)
  | .mk _ _ _ _ _ _ _ _ _ _ _ _ x => x

/-- `Span::line` from src/lib.rs: the span's line and column. -/
def Span.line (s : Span) : Nat × Nat :=
  (s.line_start, s.column_start)

/-- `Span::file_name_string` from src/lib.rs; `PathBuf::to_string_lossy` is
the identity on the `String` model. -/
def Span.file_name_string (s : Span) : String :=
  s.file_name

/-- `Message` from src/lib.rs: a message output by cargo. Declared as an
inductive because the `children` field is recursive. Field order follows the
source: message, code, level, spans, children, rendered. -/
inductive Message where
  | mk
    (message : String)
    (code : Option Code)
    (level : Level)
    (spans : Option (List Span))
    (children : Option (List Message))
    (rendered : Option String)

def Message.message : Message → String
  | .mk x _ _ _ _ _ => x

def Message.code : Message → Option Code
  | .mk _ x _ _ _ _ => x

def Message.level : Message → Level
  | .mk _ _ x _ _ _ => x

def Message.spans : Message → Option (List Span)
  | .mk _ _ _ x _ _ => x

def Message.children : Message → Option (List Message)
  | .mk _ _ _ _ x _ => x

def Message.rendered : Message → Option String
  | .mk _ _ _ _ _ x => x

/-- `Entry` from src/lib.rs: a top-level entry output by cargo. The `color`
field is private in the source and serde-defaulted to `true`. -/
structure Entry where
  reason : Reason
  package_id : String
  target : Option Target
  message : Option Message
  profile : Option Profile
  features : Option (List String)
  filenames : Option (List String)
  executable : Option String
  fresh : Option Bool
  color : Bool := true

/-! ## Report formatting (src/lib.rs) -/

def LEVEL_COLUMN_WIDTH : Nat := 7
def FILE_COLUMN_WIDTH : Nat := 18
def LINE_COLUMN_WIDTH : Nat := 8
def ELIPSES_COLUMN_WIDTH : Nat := 3

/-- `message_column_width` from src/lib.rs. The source computes
`terminal_width - 7 - 18 - 8 - 6` on `usize`; the model uses truncated `Nat`
subtraction (every width used by the claims is at least 39). -/
def message_column_width (terminal_width : Nat) : Nat :=
  terminal_width - LEVEL_COLUMN_WIDTH - FILE_COLUMN_WIDTH - LINE_COLUMN_WIDTH - 6

/-- The two alignments of the `pad` crate used by the source. -/
inductive PadAlignment where
  | left
  | right

/-- `pad_to_width_with_alignment` from the `pad` crate: pad with spaces up
to `width`; a string at least `width` long is returned unchanged. -/
def padToWidth (width : Nat) (a : PadAlignment) (s : String) : String :=
  if width ≤ s.length then s
  else
    match a with
    | .left => s ++ String.mk (List.replicate (width - s.length) ' ')
    | .right => String.mk (List.replicate (width - s.length) ' ') ++ s

/-- ANSI coloring of the `colored` crate under an explicit color switch
(the process-wide override of the source, made a parameter): wrap `s` in the
escape sequence for color `code` when `color` is on. -/
def colorize (color : Bool) (code : String) (s : String) : String :=
  if color then "\x1b[" ++ code ++ "m" ++ s ++ "\x1b[0m" else s

/-- `Level::is_none` from src/lib.rs. -/
def Level.is_none (l : Level) : Bool :=
  l == Level.none

/-- `Level::is_some` from src/lib.rs: the level is not `Level::None`. -/
def Level.is_some (l : Level) : Bool :=
  !l.is_none

/-- `Level::format` from src/lib.rs, with the global color override passed
explicitly. Bright cyan/green/yellow/red are ANSI codes 96/92/93/91. -/
def Level.format (l : Level) (color : Bool) : String :=
  match l with
  | .none => ""
  | .note => colorize color "96" (padToWidth LEVEL_COLUMN_WIDTH .right "note")
  | .help => colorize color "92" (padToWidth LEVEL_COLUMN_WIDTH .right "help")
  | .warning => colorize color "93" (padToWidth LEVEL_COLUMN_WIDTH .right "warning")
  | .error => colorize color "91" (padToWidth LEVEL_COLUMN_WIDTH .right "error")

/-- `Message::report` from src/lib.rs: the message as a compact report.
Yields `some` exactly when the span list has a last element and the level is
not `Level::None`; the follow-the-source construction of the report line
uses that last span's file name, line and column. White is ANSI code 37. -/
def Message.report (m : Message) (color : Bool) (terminal_width : Nat) : Option String :=
  match m.spans.bind (fun v => v.getLast?), m.level.is_some with
  | some span, true =>
    let level := m.level.format color
    let file0 := span.file_name_string
    let file :=
      colorize color "96" (padToWidth FILE_COLUMN_WIDTH .right
        (if file0.length ≤ FILE_COLUMN_WIDTH then file0
         else "..." ++ file0.drop (file0.length - FILE_COLUMN_WIDTH + 3)))
    let lc := span.line
    let lineStr :=
      colorize color "96" (padToWidth LINE_COLUMN_WIDTH .left
        (toString lc.1 ++ ":" ++ toString lc.2))
    let mcw := message_column_width terminal_width
    let msgStr :=
      colorize color "37" (padToWidth mcw .left
        (if m.message.length ≤ mcw then m.message.take (min mcw m.message.length)
         else m.message.take (min (mcw - ELIPSES_COLUMN_WIDTH) m.message.length) ++ "..."))
    some (level ++ " " ++ file ++ " at " ++ lineStr ++ " " ++ msgStr)
  | _, _ => none

/-- `Entry::report_width` from src/lib.rs (`Entry::report` is the same
function applied to the ambient terminal width). -/
def Entry.report_width (e : Entry) (terminal_width : Nat) : Option String :=
  e.message.bind fun m => m.report e.color terminal_width

/-- `Entry::rendered` from src/lib.rs: the entry's render if it had one. -/
def Entry.rendered (e : Entry) : Option String :=
  e.message.bind fun m => m.rendered

/-! ## The stream decoder (`Analyzer`, src/lib.rs)

The `Analyzer` owns the child's stdout byte stream and a `VecDeque<u8>`
buffer. The model carries the remaining stdout bytes (`stream`) and the
buffer (`buffer`) explicitly. `Analyzer::next` is iterated by a fuel-indexed
total function; the fuel used by `analyzerRun` is proven never to run out
for the inputs of every theorem below (each yielded record consumes at
least one byte). -/

def BUFFER_LEN : Nat := 100

/-- The read loop of `Analyzer::add_to_buffer` (src/lib.rs): while the
buffer holds no newline, read up to `BUFFER_LEN` bytes from the child's
stdout into the buffer; a zero-length read (exhausted stream) stops the
loop. One fuel unit per loop iteration. -/
def addToBufferGo : Nat → List Nat → List Nat → List Nat × List Nat
  | 0, stream, buffer => (stream, buffer)
  | fuel + 1, stream, buffer =>
    if 10 ∈ buffer then (stream, buffer)
    else
      match stream with
      | [] => ([], buffer)
      | _ :: _ => addToBufferGo fuel (stream.drop BUFFER_LEN) (buffer ++ stream.take BUFFER_LEN)

/-- `Analyzer::add_to_buffer` (src/lib.rs). `stream.length` fuel units
always suffice: every loop iteration consumes at least one stream byte. -/
def add_to_buffer (stream buffer : List Nat) : List Nat × List Nat :=
  addToBufferGo stream.length stream buffer

/-- The extraction loop of `Analyzer::next` (src/lib.rs): pop bytes off the
front of the buffer into `entry_buffer` until a newline is popped (and
dropped) or the buffer is empty. Returns `(entry_buffer, rest)`. -/
def popEntry : List Nat → List Nat × List Nat
  | [] => ([], [])
  | b :: rest =>
    if b = 10 then ([], rest)
    else ((popEntry rest).1.cons b, (popEntry rest).2)

/-- How one full iteration of the `Analyzer` ends. `finished` models
`next()` returning `None` (upon which the source calls `child.wait()`);
`panicked` models the `.unwrap()` panic on a malformed record;
`fuelExhausted` is an artifact of the fuel indexing and is proven
unreachable for the fuel supplied by `analyzerRun`. -/
inductive DecodeOutcome where
  | finished
  | panicked
  | fuelExhausted
deriving DecidableEq

/-- Iterated `Analyzer::next` (src/lib.rs): fill the buffer, pop one line;
an empty `entry_buffer` ends the iteration (`None`, then `child.wait()`);
otherwise the line is parsed (`serde_json::from_slice(..).unwrap()`, a
panic on failure), the entry's private `color` field is overwritten with
the analyzer's, and the entry is yielded. One fuel unit per `next()`
call. -/
def decodeGo (parse : List Nat → Option Entry) (color : Bool) :
    Nat → List Nat → List Nat → List Entry × DecodeOutcome
  | 0, _, _ => ([], .fuelExhausted)
  | fuel + 1, stream, buffer =>
    let stream1 := (add_to_buffer stream buffer).1
    let buffer1 := (add_to_buffer stream buffer).2
    let entryBuffer := (popEntry buffer1).1
    let buffer2 := (popEntry buffer1).2
    if entryBuffer = [] then ([], .finished)
    else
      match parse entryBuffer with
      | Option.none => ([], .panicked)
      | Option.some e =>
        ({ e with color := color } :: (decodeGo parse color fuel stream1 buffer2).1,
         (decodeGo parse color fuel stream1 buffer2).2)

/-- The full iteration of an `Analyzer` over a stdout byte stream, starting
from the empty buffer, with fuel `input.length + 1` (sufficient: each
yielded entry consumes at least one input byte, and the final `None` takes
one step). -/
def analyzerRun (parse : List Nat → Option Entry) (color : Bool) (input : List Nat) :
    List Entry × DecodeOutcome :=
  decodeGo parse color (input.length + 1) input []

/-- A byte stream consisting of the given records, each terminated by a
newline. -/
def encodeRecords : List (List Nat) → List Nat
  | [] => []
  | r :: rs => r ++ 10 :: encodeRecords rs

/-! ### Buffer lemmas -/

theorem addToBufferGo_append (fuel : Nat) :
    ∀ stream buffer : List Nat,
      (addToBufferGo fuel stream buffer).2 ++ (addToBufferGo fuel stream buffer).1 =
        buffer ++ stream := by
  induction fuel with
  | zero => intro stream buffer; simp [addToBufferGo]
  | succ fuel ih =>
    intro stream buffer
    by_cases h : 10 ∈ buffer
    · simp [addToBufferGo, h]
    · cases stream with
      | nil => simp [addToBufferGo, h]
      | cons a s =>
        simp only [addToBufferGo, if_neg h]
        rw [ih]
        simp [List.append_assoc]

theorem addToBufferGo_post (fuel : Nat) :
    ∀ stream buffer : List Nat, stream.length ≤ fuel →
      10 ∈ (addToBufferGo fuel stream buffer).2 ∨ (addToBufferGo fuel stream buffer).1 = [] := by
  induction fuel with
  | zero =>
    intro stream buffer hlen
    rcases stream with _ | ⟨a, s⟩
    · right; simp [addToBufferGo]
    · simp at hlen
  | succ fuel ih =>
    intro stream buffer hlen
    by_cases h : 10 ∈ buffer
    · left; simp [addToBufferGo, h]
    · cases stream with
      | nil => right; simp [addToBufferGo, h]
      | cons a s =>
        simp only [addToBufferGo, if_neg h]
        apply ih
        have hbl : BUFFER_LEN = 100 := rfl
        simp only [List.length_drop, List.length_cons, hbl]
        simp only [List.length_cons] at hlen
        omega

theorem popEntry_no_newline : ∀ xs : List Nat, 10 ∉ xs → popEntry xs = (xs, []) := by
  intro xs
  induction xs with
  | nil => intro _; rfl
  | cons b rest ih =>
    intro h
    have hb : b ≠ 10 := fun hb => h (hb ▸ List.mem_cons_self b rest)
    have hrest : 10 ∉ rest := fun hr => h (List.mem_cons_of_mem b hr)
    simp [popEntry, hb, ih hrest]

theorem popEntry_split : ∀ r t : List Nat, 10 ∉ r → popEntry (r ++ 10 :: t) = (r, t) := by
  intro r
  induction r with
  | nil => intro t _; simp [popEntry]
  | cons a r' ih =>
    intro t h
    have ha : a ≠ 10 := fun hb => h (hb ▸ List.mem_cons_self a r')
    have hr' : 10 ∉ r' := fun hr => h (List.mem_cons_of_mem a hr)
    simp [popEntry, ha, ih t hr']

/-- Splitting an equation `xs ++ ys = r ++ 10 :: t` at the first newline
when the newline is known to lie inside `xs`. -/
theorem append_eq_record_split :
    ∀ r xs ys t : List Nat, xs ++ ys = r ++ 10 :: t → 10 ∈ xs → 10 ∉ r →
      ∃ w, xs = r ++ 10 :: w ∧ w ++ ys = t := by
  intro r
  induction r with
  | nil =>
    intro xs ys t h hx _
    cases xs with
    | nil => simp at hx
    | cons b xs' =>
      simp only [List.cons_append, List.nil_append] at h
      obtain ⟨hb, hrest⟩ := List.cons.injEq .. ▸ h
      exact ⟨xs', by simp [hb], hrest⟩
  | cons a r' ih =>
    intro xs ys t h hx hr
    have ha : a ≠ 10 := fun hb => hr (hb ▸ List.mem_cons_self a r')
    have hr' : 10 ∉ r' := fun hm => hr (List.mem_cons_of_mem a hm)
    cases xs with
    | nil => simp at hx
    | cons b xs' =>
      simp only [List.cons_append] at h
      obtain ⟨hb, hrest⟩ := List.cons.injEq .. ▸ h
      have hx' : 10 ∈ xs' := by
        rcases List.mem_cons.mp hx with h10 | h10
        · exact absurd (hb ▸ h10.symm) ha
        · exact h10
      obtain ⟨w, hw1, hw2⟩ := ih xs' ys t hrest hx' hr'
      exact ⟨w, by simp [hb, hw1], hw2⟩

/-- Decomposing a byte list at its first newline. -/
theorem first_newline_split :
    ∀ v : List Nat, 10 ∈ v → ∃ r t, 10 ∉ r ∧ v = r ++ 10 :: t := by
  intro v
  induction v with
  | nil => intro h; simp at h
  | cons a v' ih =>
    intro h
    by_cases ha : a = 10
    · exact ⟨[], v', by simp, by simp [ha]⟩
    · have h' : 10 ∈ v' := by
        rcases List.mem_cons.mp h with h10 | h10
        · exact absurd h10.symm ha
        · exact h10
      obtain ⟨r, t, hr, hv⟩ := ih h'
      exact ⟨a :: r, t, by simp [hr, Ne.symm ha, ha], by simp [hv]⟩

/-! ### One-step characterization of `Analyzer::next` on the virtual stream

`buffer ++ stream` is the "virtual stream" of unconsumed bytes. One
`next()` call extracts exactly the bytes before the first newline of the
virtual stream (the whole remainder when no newline is left), independently
of how the bytes are split between buffer and stream. -/

theorem add_to_buffer_append (stream buffer : List Nat) :
    (add_to_buffer stream buffer).2 ++ (add_to_buffer stream buffer).1 = buffer ++ stream :=
  addToBufferGo_append _ _ _

theorem add_to_buffer_post (stream buffer : List Nat) :
    10 ∈ (add_to_buffer stream buffer).2 ∨ (add_to_buffer stream buffer).1 = [] :=
  addToBufferGo_post _ _ _ (le_refl _)

theorem step_record (r t stream buffer : List Nat) (hr : 10 ∉ r)
    (hv : buffer ++ stream = r ++ 10 :: t) :
    (popEntry (add_to_buffer stream buffer).2).1 = r ∧
      (popEntry (add_to_buffer stream buffer).2).2 ++ (add_to_buffer stream buffer).1 = t := by
  have happ : (add_to_buffer stream buffer).2 ++ (add_to_buffer stream buffer).1 =
      r ++ 10 :: t := (add_to_buffer_append stream buffer).trans hv
  have hpost := add_to_buffer_post stream buffer
  rcases hpost with hmem | hnil
  · obtain ⟨w, hw1, hw2⟩ :=
      append_eq_record_split r (add_to_buffer stream buffer).2
        (add_to_buffer stream buffer).1 t happ hmem hr
    rw [hw1, popEntry_split r _ hr]
    exact ⟨rfl, hw2⟩
  · rw [hnil, List.append_nil] at happ
    rw [happ, popEntry_split r t hr, hnil]
    simp

theorem step_frag (stream buffer : List Nat) (h : 10 ∉ buffer ++ stream) :
    (popEntry (add_to_buffer stream buffer).2).1 = buffer ++ stream ∧
      (popEntry (add_to_buffer stream buffer).2).2 = [] ∧
      (add_to_buffer stream buffer).1 = [] := by
  have happ : (add_to_buffer stream buffer).2 ++ (add_to_buffer stream buffer).1 =
      buffer ++ stream := add_to_buffer_append stream buffer
  have hpost := add_to_buffer_post stream buffer
  rcases hpost with hmem | hnil
  · exact absurd (happ ▸ List.mem_append_left _ hmem) h
  · rw [hnil, List.append_nil] at happ
    rw [happ, hnil, popEntry_no_newline _ h]
    exact ⟨rfl, rfl, rfl⟩

/-- The iterated decoder depends only on the virtual stream and terminates
identically under any two sufficient fuels. -/
theorem decodeGo_virtual (parse : List Nat → Option Entry) (c : Bool) :
    ∀ n fuel fuel' stream buffer stream' buffer',
      buffer ++ stream = buffer' ++ stream' →
      (buffer ++ stream).length ≤ n → n < fuel → n < fuel' →
      decodeGo parse c fuel stream buffer = decodeGo parse c fuel' stream' buffer' := by
  intro n
  induction n with
  | zero =>
    intro fuel fuel' stream buffer stream' buffer' heq hlen hf hf'
    obtain ⟨f, rfl⟩ : ∃ f, fuel = f + 1 := ⟨fuel - 1, by omega⟩
    obtain ⟨f', rfl⟩ : ∃ f', fuel' = f' + 1 := ⟨fuel' - 1, by omega⟩
    have h1 : buffer ++ stream = [] := List.length_eq_zero.mp (by omega)
    have h2 : buffer' ++ stream' = [] := heq ▸ h1
    obtain ⟨hb, hs⟩ := List.append_eq_nil.mp h1
    obtain ⟨hb', hs'⟩ := List.append_eq_nil.mp h2
    subst hb hs hb' hs'
    rfl
  | succ n ih =>
    intro fuel fuel' stream buffer stream' buffer' heq hlen hf hf'
    obtain ⟨f, rfl⟩ : ∃ f, fuel = f + 1 := ⟨fuel - 1, by omega⟩
    obtain ⟨f', rfl⟩ : ∃ f', fuel' = f' + 1 := ⟨fuel' - 1, by omega⟩
    by_cases hm : 10 ∈ buffer ++ stream
    · obtain ⟨r, t, hr, hsplit⟩ := first_newline_split _ hm
      have S1 := step_record r t stream buffer hr hsplit
      have S2 := step_record r t stream' buffer' hr (heq ▸ hsplit)
      have hlt : t.length ≤ n := by
        have h1 := congrArg List.length hsplit
        simp only [List.length_append, List.length_cons] at h1 hlen
        omega
      simp only [decodeGo, S1.1, S2.1]
      by_cases hr0 : r = []
      · simp [hr0]
      · simp only [if_neg hr0]
        cases hp : parse r with
        | none => rfl
        | some e =>
          have hco := ih f f' (add_to_buffer stream buffer).1
            (popEntry (add_to_buffer stream buffer).2).2
            (add_to_buffer stream' buffer').1
            (popEntry (add_to_buffer stream' buffer').2).2
            (by rw [S1.2, S2.2]) (S1.2 ▸ hlt) (by omega) (by omega)
          rw [hco]
    · have S1 := step_frag stream buffer hm
      have S2 := step_frag stream' buffer' (heq ▸ hm)
      simp only [decodeGo, S1.1, S2.1, ← heq]
      by_cases hv0 : buffer ++ stream = []
      · simp [hv0]
      · simp only [if_neg hv0]
        cases hp : parse (buffer ++ stream) with
        | none => rfl
        | some e =>
          have hco := ih f f' (add_to_buffer stream buffer).1
            (popEntry (add_to_buffer stream buffer).2).2
            (add_to_buffer stream' buffer').1
            (popEntry (add_to_buffer stream' buffer').2).2
            (by rw [S1.2.1, S1.2.2, S2.2.1, S2.2.2])
            (by rw [S1.2.1, S1.2.2]; simp) (by omega) (by omega)
          rw [hco]

/-! ### Running the analyzer over structured streams -/

theorem decodeGo_nil (parse : List Nat → Option Entry) (c : Bool) (fuel : Nat)
    (h : 1 ≤ fuel) : decodeGo parse c fuel [] [] = ([], .finished) := by
  obtain ⟨f, rfl⟩ : ∃ f, fuel = f + 1 := ⟨fuel - 1, by omega⟩
  rfl

theorem analyzerRun_nil (parse : List Nat → Option Entry) (c : Bool) :
    analyzerRun parse c [] = ([], .finished) := rfl

/-- One well-formed newline-terminated record at the head of the stream is
decoded and yielded, and the iteration continues on the remainder. -/
theorem analyzerRun_yield (parse : List Nat → Option Entry) (c : Bool)
    (r t : List Nat) (e : Entry) (hne : r ≠ []) (hr : 10 ∉ r) (hp : parse r = some e) :
    analyzerRun parse c (r ++ 10 :: t) =
      ({ e with color := c } :: (analyzerRun parse c t).1, (analyzerRun parse c t).2) := by
  have S := step_record r t (r ++ 10 :: t) [] hr (by simp)
  show decodeGo parse c ((r ++ 10 :: t).length + 1) (r ++ 10 :: t) [] = _
  simp only [decodeGo, S.1, if_neg hne, hp]
  have hco := decodeGo_virtual parse c t.length ((r ++ 10 :: t).length) (t.length + 1)
      (add_to_buffer (r ++ 10 :: t) []).1 (popEntry (add_to_buffer (r ++ 10 :: t) []).2).2
      t []
      (by rw [S.2]; simp)
      (by rw [S.2])
      (by simp only [List.length_append, List.length_cons]; omega)
      (by omega)
  rw [hco]
  rfl

/-- A stream beginning with an empty line ends the iteration at once. -/
theorem analyzerRun_emptyline (parse : List Nat → Option Entry) (c : Bool) (t : List Nat) :
    analyzerRun parse c (10 :: t) = ([], .finished) := by
  have S := step_record [] t (10 :: t) [] (by simp) (by simp)
  show decodeGo parse c ((10 :: t).length + 1) (10 :: t) [] = _
  simp [decodeGo, S.1]

/-- A stream beginning with a nonempty malformed terminated line makes the
decoder panic at once; nothing after the line is examined. -/
theorem analyzerRun_badline (parse : List Nat → Option Entry) (c : Bool)
    (bad t : List Nat) (hne : bad ≠ []) (h10 : 10 ∉ bad) (hp : parse bad = none) :
    analyzerRun parse c (bad ++ 10 :: t) = ([], .panicked) := by
  have S := step_record bad t (bad ++ 10 :: t) [] h10 (by simp)
  show decodeGo parse c ((bad ++ 10 :: t).length + 1) (bad ++ 10 :: t) [] = _
  simp [decodeGo, S.1, if_neg hne, hp]

/-- A nonempty newline-free remainder (an unterminated trailing fragment) is
itself fed to the JSON parser: it yields an extra entry when it parses and a
panic otherwise. -/
theorem analyzerRun_frag (parse : List Nat → Option Entry) (c : Bool)
    (frag : List Nat) (h10 : 10 ∉ frag) (hne : frag ≠ []) :
    analyzerRun parse c frag =
      match parse frag with
      | Option.some e => ([{ e with color := c }], .finished)
      | Option.none => ([], .panicked) := by
  have S := step_frag frag [] (by simpa using h10)
  show decodeGo parse c (frag.length + 1) frag [] = _
  have h1 : (popEntry (add_to_buffer frag []).2).1 = frag := by
    rw [S.1]; simp
  simp only [decodeGo, h1, if_neg hne]
  cases hp : parse frag with
  | none => rfl
  | some e =>
    rw [S.2.1, S.2.2, decodeGo_nil parse c frag.length (List.length_pos.mpr hne)]

/-- Decoding a stream that starts with well-formed newline-terminated
records yields exactly those records' entries in order, followed by
whatever the iteration does on the remainder of the stream. -/
theorem analyzerRun_cons (parse : List Nat → Option Entry) (c : Bool) :
    ∀ (rs : List (List Nat)) (t : List Nat),
      (∀ r ∈ rs, r ≠ [] ∧ 10 ∉ r ∧ (parse r).isSome) →
      analyzerRun parse c (encodeRecords rs ++ t) =
        ((rs.filterMap fun r => (parse r).map fun e => { e with color := c })
            ++ (analyzerRun parse c t).1,
          (analyzerRun parse c t).2) := by
  intro rs
  induction rs with
  | nil =>
    intro t _
    simp [encodeRecords]
  | cons r rs ih =>
    intro t hgood
    obtain ⟨hne, h10, hsome⟩ := hgood r (List.mem_cons_self r rs)
    obtain ⟨e, hp⟩ := Option.isSome_iff_exists.mp hsome
    have heq : encodeRecords (r :: rs) ++ t = r ++ 10 :: (encodeRecords rs ++ t) := by
      simp [encodeRecords]
    rw [heq, analyzerRun_yield parse c r (encodeRecords rs ++ t) e hne h10 hp,
        ih t (fun x hx => hgood x (List.mem_cons_of_mem _ hx))]
    simp [List.filterMap_cons, hp]

/-! ## Fix application (src/main.rs command loop; FixApplier spec §4.4)

`src/main.rs` calls `Message::replacement_span` and `Span::replace_in_file`,
but those two functions are absent from the source under src/ (only their
call sites are present). They are therefore modelled from the spec below;
everything else in this section is translated from the `fix` command branch
of the watch loop in src/main.rs. -/

mutual

/-- Modelled from the spec: `Message::replacement_span` is called at
src/main.rs (fix branch) but its definition is missing from src/.
Spec §4.3: the fix operation "searches the message and its nested children
depth-first for the first span carrying `suggested_replacement`". The
message's own spans are scanned in order before its children, each child
being searched the same way in order. -/
def Message.replacement_span : Message → Option Span
  | .mk _ _ _ spans children _ =>
    match (spans.getD []).find? (fun s => s.suggested_replacement.isSome) with
    | Option.some s => some s
    | Option.none =>
      match children with
      | Option.none => none
      | Option.some cs => Message.replacementSpanList cs

/-- Depth-first search of `Message.replacement_span` through a list of
child messages, in order. -/
def Message.replacementSpanList : List Message → Option Span
  | [] => none
  | m :: rest =>
    match Message.replacement_span m with
    | Option.some s => some s
    | Option.none => Message.replacementSpanList rest

end

/-- The failure modes of fix application named by the spec (§4.4, §7):
`rangeOutOfBounds` for a bad byte range, `fileError` for an I/O failure
(the file cannot be read). -/
inductive FixError where
  | rangeOutOfBounds
  | fileError
deriving DecidableEq

def FixError.describe : FixError → String
  | .rangeOutOfBounds => "range out of bounds"
  | .fileError => "unable to read file"

/-- Modelled from the spec: `Span::replace_in_file` is called at
src/main.rs (fix branch) but its definition is missing from src/. Spec §4.4
(`FixApplier.apply`): read the full contents of `span.file_name`; fail with
`RangeOutOfBounds` if `byte_start > byte_end` or `byte_end` exceeds the file
length, leaving the file untouched; otherwise overwrite the file with
`content[0:byte_start] + replacement + content[byte_end:]`. The filesystem
is a partial map from file names to contents; on success the updated map is
returned, on failure no map is returned (the caller keeps the old one). -/
def fixApplierApply (files : String → Option String) (sp : Span) (replacement : String) :
    Except FixError (String → Option String) :=
  match files sp.file_name with
  | Option.none => .error .fileError
  | Option.some content =>
    if sp.byte_start > sp.byte_end ∨ content.length < sp.byte_end then
      .error .rangeOutOfBounds
    else
      .ok fun f =>
        if f = sp.file_name then
          some (content.take sp.byte_start ++ replacement ++ content.drop sp.byte_end)
        else files f

/-- Result of the `fix <index>` command branch of src/main.rs: `fixed`
models the `Ok` branch (which prints "Fixed, recompiling..."); the other
constructors model the error messages printed by the source
("Invalid index", "No replacement available", "Error: {e}"). -/
inductive FixResult where
  | fixed
  | invalidIndex
  | noReplacement
  | applyError (e : FixError)
deriving DecidableEq

/-- The `fix <index>` command branch of the watch loop (src/main.rs):
check `i < entries.len()`, look up
`entries[i].message.as_ref().and_then(Message::replacement_span)`, and call
`replace_in_file` on the found span (whose `suggested_replacement` is the
replacement text). Returns the outcome together with the (possibly
updated) filesystem. -/
def fixCommand (files : String → Option String) (entries : List Entry) (i : Nat) :
    FixResult × (String → Option String) :=
  match entries[i]? with
  | Option.none => (.invalidIndex, files)
  | Option.some entry =>
    match entry.message.bind Message.replacement_span with
    | Option.none => (.noReplacement, files)
    | Option.some sp =>
      match fixApplierApply files sp (sp.suggested_replacement.getD "") with
      | .ok files2 => (.fixed, files2)
      | .error err => (.applyError err, files)

/-! ## The command interpreter and watch loop (src/main.rs) -/

/-- Outcome of the numeric `<index>` (show) command branch of src/main.rs. -/
inductive ShowOutcome where
  | rendered (s : String)
  | noRender
  | invalidIndex
deriving DecidableEq

/-- The numeric `<index>` command branch of the watch loop (src/main.rs):
`entries.get(i)`, then the entry's render. -/
def showCommand (entries : List Entry) (i : Nat) : ShowOutcome :=
  match entries[i]? with
  | Option.some entry =>
    match entry.rendered with
    | Option.some r => .rendered r
    | Option.none => .noRender
  | Option.none => .invalidIndex

/-- The exact line printed by src/main.rs for each show outcome. -/
def ShowOutcome.text : ShowOutcome → String
  | .rendered s => s
  | .noRender => "No render available"
  | .invalidIndex => "Invalid index"

/-- `COMMAND_HELP` from src/main.rs. -/
def COMMAND_HELP : String :=
  "\nCommands:\n    <index>      expand the message at the index\n    fix <index>  apply the compiler-suggested fix, if there is one\n    quit         quit watching\n    help         display this message\n"

/-- A user command, after the string dispatch of the watch loop
(src/main.rs): `help`, `fix <index>`, an exit keyword
(`quit`/`exit`/`q`), a bare index, or anything else. The string-level
parsing (`trim`, `parse::<usize>`) is outside the claims and not
modelled. -/
inductive Command where
  | help
  | fix (i : Nat)
  | exitCmd
  | showIdx (i : Nat)
  | unknown (s : String)

/-- A debounced filesystem notification, as delivered to the watch loop's
event channel (src/main.rs); the loop reacts only to `Write` events. -/
inductive FsEvent where
  | write (path : String)
  | other

def FsEvent.isWrite : FsEvent → Bool
  | .write _ => true
  | .other => false

/-- The state owned by the watch loop of src/main.rs: the current
diagnostics snapshot (`entries`), the filesystem, whether the loop was told
to quit, and how many analysis runs have completed (used to index the
per-run checker output). -/
structure WatchSt where
  entries : List Entry
  files : String → Option String
  quitFlag : Bool
  runCount : Nat

/-- One analysis run (`run` in src/main.rs): consume the entire analyzer
iterator and keep the entries with a report
(`.filter(|entry| entry.report().is_some())`), with the ambient terminal
width passed explicitly. -/
def runAnalysis (parse : List Nat → Option Entry) (color : Bool) (w : Nat)
    (stream : List Nat) : List Entry :=
  (analyzerRun parse color stream).1.filter fun e => (e.report_width w).isSome

/-- The command dispatch of the watch loop body (src/main.rs), returning
the successor state and the lines printed. -/
def commandStep (st : WatchSt) : Command → WatchSt × List String
  | .help => (st, [COMMAND_HELP])
  | .fix i =>
    match fixCommand st.files st.entries i with
    | (.fixed, files2) =>
      ({ st with files := files2 }, ["Fixed, recompiling..."])
    | (.invalidIndex, _) => (st, ["Invalid index"])
    | (.noReplacement, _) => (st, ["No replacement available"])
    | (.applyError e, _) => (st, ["Error: " ++ e.describe])
  | .exitCmd => ({ st with quitFlag := true }, [])
  | .showIdx i => (st, [(showCommand st.entries i).text])
  | .unknown s => (st, ["Unknown command: " ++ s, COMMAND_HELP])

/-- The filesystem-event half of one watch-loop iteration (src/main.rs):
drain the event channel; if any `Write` event arrived, perform one full
synchronous analysis run, wholesale-replacing the snapshot. `streams n` is
the checker's stdout for the `n`-th run. -/
def fsPhase (parse : List Nat → Option Entry) (streams : Nat → List Nat)
    (color : Bool) (w : Nat) (st : WatchSt) (events : List FsEvent) : WatchSt :=
  if events.any FsEvent.isWrite then
    { st with
      entries := runAnalysis parse color w (streams st.runCount)
      runCount := st.runCount + 1 }
  else st

/-- One iteration of the watch loop of src/main.rs: drain the event
channel (running a full analysis if a write arrived), then service at most
one queued command (`try_recv`), then sleep. The channels are modelled by
the per-iteration arguments `events` and `cmd`: whatever arrived since the
previous poll, including anything that arrived while the run was in
progress. -/
def watchIter (parse : List Nat → Option Entry) (streams : Nat → List Nat)
    (color : Bool) (w : Nat) (st : WatchSt) (events : List FsEvent)
    (cmd : Option Command) : WatchSt × List String :=
  let got_event := events.any FsEvent.isWrite
  let st1 :=
    if got_event then
      { st with
        entries := runAnalysis parse color w (streams st.runCount)
        runCount := st.runCount + 1 }
    else st
  match cmd with
  | Option.none => (st1, [])
  | Option.some c => commandStep st1 c

/-! ## Concrete instances used by counterexamples and witnesses -/

/-- A minimal artifact-free entry ("A"). -/
def entryA : Entry :=
  { reason := .CompilerMessage, package_id := "A", target := none, message := none,
    profile := none, features := none, filenames := none, executable := none,
    fresh := none, color := true }

/-- A second minimal entry ("B"). -/
def entryB : Entry :=
  { entryA with package_id := "B" }

/-- A concrete stand-in for `serde_json::from_slice`: the byte list `[65]`
("A") decodes to `entryA`, `[66]` ("B") to `entryB`, and everything else —
including the empty line — is malformed. -/
def parseEx : List Nat → Option Entry := fun l =>
  if l = [65] then some entryA else if l = [66] then some entryB else none

/-! ## Claims about the stream decoder -/

/-- C1 (counterexample): the stream `[65, 10, 66]` consists of `N = 1`
well-formed newline-terminated record (`[65]`) followed by the nonempty
unterminated trailing fragment `[66]`; the claim requires exactly 1 event
with the fragment silently discarded, but the decoder yields 2 events: the
fragment is parsed as a record and emitted. -/
theorem C1_trailing_fragment_cex :
    encodeRecords [[65]] ++ [66] = [65, 10, 66] ∧
    (parseEx [65]).isSome ∧ (10 : Nat) ∉ [66] ∧ [66] ≠ ([] : List Nat) ∧
    (analyzerRun parseEx true [65, 10, 66]).1.length = 2 := by
  exact ⟨rfl, rfl, by decide, by decide, rfl⟩

/-- C1 (amended): for a stream of `N` well-formed newline-terminated
records followed by an optional unterminated trailing fragment, the decoder
yields the `N` records' events in stream order; when the fragment is empty
the iteration then ends, but a nonempty fragment is *not* discarded: it is
itself fed to the JSON parser, yielding an extra event when it parses as a
record and a fatal decode panic otherwise. -/
theorem C1_decoder_records_and_fragment (parse : List Nat → Option Entry) (c : Bool)
    (rs : List (List Nat)) (frag : List Nat)
    (hrs : ∀ r ∈ rs, r ≠ [] ∧ 10 ∉ r ∧ (parse r).isSome)
    (hfrag : 10 ∉ frag) :
    analyzerRun parse c (encodeRecords rs ++ frag) =
      ((rs.filterMap fun r => (parse r).map fun e => { e with color := c }) ++
          (if frag = [] then [] else
            match parse frag with
            | Option.some e => [{ e with color := c }]
            | Option.none => []),
        if frag = [] then DecodeOutcome.finished else
          match parse frag with
          | Option.some _ => DecodeOutcome.finished
          | Option.none => DecodeOutcome.panicked) := by
  rw [analyzerRun_cons parse c rs frag hrs]
  by_cases h0 : frag = []
  · subst h0
    simp [analyzerRun_nil]
  · rw [analyzerRun_frag parse c frag hfrag h0]
    simp only [if_neg h0]
    cases parse frag <;> simp

/-- C1 (witness): on one record `[65]` plus fragment `[66]` the amended
statement evaluates to two events and a normal finish. -/
theorem C1_decoder_records_and_fragment_witness :
    analyzerRun parseEx true (encodeRecords [[65]] ++ [66]) =
      ([{ entryA with color := true }, { entryB with color := true }],
        DecodeOutcome.finished) := by
  rw [C1_decoder_records_and_fragment parseEx true [[65]] [66] (by decide) (by decide)]
  rfl

/-- C4 (counterexample): the empty line — contents `[]`, a complete
newline-terminated line that is not a well-formed record
(`parseEx [] = none`) — does not raise a fatal decode error: the decoder
ends the iteration normally instead. -/
theorem C4_empty_line_not_fatal_cex :
    parseEx [] = none ∧
    (analyzerRun parseEx true ([] ++ 10 :: [65, 10])).2 = DecodeOutcome.finished ∧
    DecodeOutcome.finished ≠ DecodeOutcome.panicked := by
  exact ⟨rfl, rfl, by decide⟩

/-- C4 (amended): for every complete newline-terminated line with
*nonempty* contents that are not a well-formed record, the decoder raises a
fatal decode error (the `unwrap` panic): the malformed record is never
skipped and no further events are yielded after it; records before it are
yielded normally. (The empty line instead ends the iteration, see the
counterexample and C9.) -/
theorem C4_malformed_line_is_fatal (parse : List Nat → Option Entry) (c : Bool)
    (rs : List (List Nat)) (bad rest : List Nat)
    (hrs : ∀ r ∈ rs, r ≠ [] ∧ 10 ∉ r ∧ (parse r).isSome)
    (hbne : bad ≠ []) (hb10 : 10 ∉ bad) (hbp : parse bad = none) :
    analyzerRun parse c (encodeRecords rs ++ (bad ++ 10 :: rest)) =
      (rs.filterMap fun r => (parse r).map fun e => { e with color := c },
        DecodeOutcome.panicked) := by
  rw [analyzerRun_cons parse c rs _ hrs,
      analyzerRun_badline parse c bad rest hbne hb10 hbp]
  simp

/-- C4 (witness): a malformed line `[67]` after the record `[65]` yields
only the first record's event and then panics; the record `[66]` after the
malformed line is never yielded. -/
theorem C4_malformed_line_is_fatal_witness :
    analyzerRun parseEx true (encodeRecords [[65]] ++ ([67] ++ 10 :: ([66] ++ [10]))) =
      ([{ entryA with color := true }], DecodeOutcome.panicked) := by
  rw [C4_malformed_line_is_fatal parseEx true [[65]] [67] ([66] ++ [10])
      (by decide) (by decide) (by decide) rfl]
  rfl

/-- C9 (confirmed): an empty record line ends the iteration: upon reaching
it, `next()` returns `None` (the branch that also waits on the child
process, modelled by `DecodeOutcome.finished`), and no record after the
empty line is ever yielded — even though the stream may continue, so the
end of iteration is decided by the extracted line being empty and not only
by a zero-length read. -/
theorem C9_empty_line_ends_iteration (parse : List Nat → Option Entry) (c : Bool)
    (rs : List (List Nat)) (rest : List Nat)
    (hrs : ∀ r ∈ rs, r ≠ [] ∧ 10 ∉ r ∧ (parse r).isSome) :
    analyzerRun parse c (encodeRecords rs ++ (10 :: rest)) =
      (rs.filterMap fun r => (parse r).map fun e => { e with color := c },
        DecodeOutcome.finished) := by
  rw [analyzerRun_cons parse c rs _ hrs, analyzerRun_emptyline]
  simp

/-- C9 (witness): after the record `[65]`, an empty line stops the
iteration although the well-formed record `[66]` follows it in the
stream. -/
theorem C9_empty_line_ends_iteration_witness :
    analyzerRun parseEx true (encodeRecords [[65]] ++ (10 :: ([66] ++ [10]))) =
      ([{ entryA with color := true }], DecodeOutcome.finished) := by
  rw [C9_empty_line_ends_iteration parseEx true [[65]] ([66] ++ [10]) (by decide)]
  rfl

/-! ## Claims about report projection -/

/-- A span flagged `is_primary`, locating `aaa.rs:1:2`. -/
def spanA : Span :=
  Span.mk "aaa.rs" 0 1 1 1 2 3 true [] none none none none

/-- A span not flagged `is_primary`, locating `bbb.rs:7:8`. -/
def spanB : Span :=
  Span.mk "bbb.rs" 0 1 7 7 8 9 false [] none none none none

/-- A warning whose span list flags the *first* span as primary. -/
def msgAB : Message :=
  Message.mk "oops" none Level.warning (some [spanA, spanB]) none none

/-- The same warning restricted to the primary span only. -/
def msgOnlyA : Message :=
  Message.mk "oops" none Level.warning (some [spanA]) none none

/-- The same warning restricted to the last span only. -/
def msgOnlyB : Message :=
  Message.mk "oops" none Level.warning (some [spanB]) none none

/-- C2 (counterexample): in `msgAB` the span flagged `is_primary` is
`spanA` (and `spanB` is not flagged), yet the report of `msgAB` coincides
with the report produced from the last span `spanB` alone and differs from
the report produced from the flagged span `spanA` alone — so the span used
for the report (file name, line, column) is not the `is_primary` one. -/
theorem C2_primary_flag_ignored_cex :
    spanA.is_primary = true ∧ spanB.is_primary = false ∧
    msgAB.spans = some [spanA, spanB] ∧
    Message.report msgAB false 100 = Message.report msgOnlyB false 100 ∧
    Message.report msgAB false 100 ≠ Message.report msgOnlyA false 100 := by
  exact ⟨rfl, rfl, rfl, rfl, by decide⟩

/-- C2 (amended): the span used to produce a report is always the last
span of the span list, regardless of any `is_primary` flags: the report of
a message whose span list is `v ++ [s]` equals the report of the same
message with span list `[s]`. -/
theorem C2_report_uses_last_span (txt : String) (cd : Option Code) (lv : Level)
    (v : List Span) (s : Span) (ch : Option (List Message)) (rd : Option String)
    (c : Bool) (w : Nat) :
    Message.report (Message.mk txt cd lv (some (v ++ [s])) ch rd) c w =
      Message.report (Message.mk txt cd lv (some [s]) ch rd) c w := by
  simp only [Message.report, Message.spans, Message.level, Message.message]
  rw [show (Option.some (v ++ [s])).bind (fun l => l.getLast?) = some s by
        simp [List.getLast?_concat],
      show (Option.some [s]).bind (fun l => l.getLast?) = some s by simp]

/-- C8 (confirmed): a message whose level is `Level::None` produces no
report, whatever its spans, children, code, render or text. -/
theorem C8_level_none_never_reports (txt : String) (cd : Option Code)
    (sp : Option (List Span)) (ch : Option (List Message)) (rd : Option String)
    (c : Bool) (w : Nat) :
    Message.report (Message.mk txt cd Level.none sp ch rd) c w = none := by
  cases hx : (Message.mk txt cd Level.none sp ch rd).spans.bind fun l => l.getLast? with
  | none => simp [Message.report, hx]
  | some s =>
    simp [Message.report, hx, Level.is_some, Level.is_none, Message.level]

/-- C10 (confirmed): an entry whose message has an absent or empty span
list gets no report from `Entry::report_width` (hence from
`Entry::report`, which is `report_width` at the ambient terminal width),
regardless of the message's level. -/
theorem C10_no_spans_no_report (e : Entry) (m : Message) (w : Nat)
    (hm : e.message = some m) (hsp : m.spans = none ∨ m.spans = some []) :
    e.report_width w = none := by
  rcases hsp with h | h
  · simp [Entry.report_width, hm, Message.report, h]
  · simp [Entry.report_width, hm, Message.report, h]

/-- An error-level message carrying no spans. -/
def msgNoSpans : Message :=
  Message.mk "boom" none Level.error (some []) none none

/-- An entry holding `msgNoSpans`. -/
def entryNoSpans : Entry :=
  { entryA with message := some msgNoSpans }

/-- C10 (witness): even at level `Level::Error`, an entry with an empty
span list reports nothing. -/
theorem C10_no_spans_no_report_witness :
    entryNoSpans.report_width 100 = none ∧ msgNoSpans.level = Level.error :=
  ⟨C10_no_spans_no_report entryNoSpans msgNoSpans 100 rfl (Or.inr rfl), rfl⟩

/-! ## Claims about the command interpreter and fix application -/

/-- The span of the spec's worked fix example: byte range `[2, 5)` in
`ex.rs`, carrying the suggested replacement `"XYZ"`. -/
def spanFix : Span :=
  Span.mk "ex.rs" 2 5 1 1 3 6 true [] none (some "XYZ") none none

/-- An error message holding `spanFix`. -/
def msgFix : Message :=
  Message.mk "fixable" none Level.error (some [spanFix]) none none

/-- An entry holding `msgFix`. -/
def entryFix : Entry :=
  { entryA with message := some msgFix }

/-- A filesystem in which `ex.rs` holds `"abcdefgh"`. -/
def filesEx : String → Option String := fun f =>
  if f = "ex.rs" then some "abcdefgh" else none

/-- C3 (confirmed, spec-modelled FixApplier): reading `content` from the
span's file, the application fails with `RangeOutOfBounds` exactly when
`byte_start > byte_end` or `byte_end` exceeds the file length (and then no
updated filesystem is produced — the file is untouched); otherwise it
overwrites the file with
`content[0:byte_start] ++ replacement ++ content[byte_end:]`, leaving every
other file unchanged. -/
theorem C3_fix_applier_bounds_and_splice (files : String → Option String)
    (sp : Span) (repl content : String)
    (hread : files sp.file_name = some content) :
    (fixApplierApply files sp repl = .error .rangeOutOfBounds ↔
      (sp.byte_start > sp.byte_end ∨ content.length < sp.byte_end)) ∧
    (sp.byte_start ≤ sp.byte_end → sp.byte_end ≤ content.length →
      ∃ files2, fixApplierApply files sp repl = .ok files2 ∧
        files2 sp.file_name =
          some (content.take sp.byte_start ++ repl ++ content.drop sp.byte_end) ∧
        ∀ f, f ≠ sp.file_name → files2 f = files f) := by
  by_cases hc : sp.byte_start > sp.byte_end ∨ content.length < sp.byte_end
  · refine ⟨⟨fun _ => hc, fun _ => by simp [fixApplierApply, hread, hc]⟩, ?_⟩
    intro h1 h2
    exact absurd hc (by omega)
  · constructor
    · constructor
      · intro h
        rw [show fixApplierApply files sp repl = .ok (fun f =>
              if f = sp.file_name then
                some (content.take sp.byte_start ++ repl ++ content.drop sp.byte_end)
              else files f) by simp [fixApplierApply, hread, hc]] at h
        exact absurd h (by simp)
      · intro h
        exact absurd h hc
    · intro h1 h2
      refine ⟨fun f =>
          if f = sp.file_name then
            some (content.take sp.byte_start ++ repl ++ content.drop sp.byte_end)
          else files f, by simp [fixApplierApply, hread, hc], by simp, ?_⟩
      intro f hf
      simp [hf]

/-- C3 (witness): the spec's worked example — content `"abcdefgh"`,
`byte_start = 2`, `byte_end = 5`, replacement `"XYZ"` — produces
`"abXYZfgh"`. -/
theorem C3_fix_applier_bounds_and_splice_witness :
    ∃ files2, fixApplierApply filesEx spanFix "XYZ" = .ok files2 ∧
      files2 "ex.rs" = some "abXYZfgh" := by
  obtain ⟨-, h2⟩ :=
    C3_fix_applier_bounds_and_splice filesEx spanFix "XYZ" "abcdefgh" rfl
  obtain ⟨files2, hok, hfile, -⟩ := h2 (by decide) (by decide)
  refine ⟨files2, hok, ?_⟩
  rw [show ("ex.rs" : String) = spanFix.file_name from rfl, hfile]
  rfl

/-- A message with a precomputed render. -/
def msgRendered : Message :=
  Message.mk "m" none Level.warning none none (some "RENDER")

/-- An entry with a precomputed render. -/
def entryRendered : Entry :=
  { entryA with message := some msgRendered }

/-- A message without a precomputed render. -/
def msgNoRender : Message :=
  Message.mk "m" none Level.warning none none none

/-- An entry without a precomputed render. -/
def entryNoRender : Entry :=
  { entryA with message := some msgNoRender }

/-- C5 (counterexample): for an in-range index whose entry has no
precomputed render, the text the show command prints is
`"No render available"` (capital N), not the claimed text
`"no render available"`. -/
theorem C5_no_render_text_cex :
    showCommand [entryNoRender] 0 = ShowOutcome.noRender ∧
    (showCommand [entryNoRender] 0).text = "No render available" ∧
    "No render available" ≠ "no render available" := by
  exact ⟨rfl, rfl, by decide⟩

/-- C5 (amended): the show command fails with invalid-index exactly when
the index is outside `[0, len)`; otherwise it returns the entry's
precomputed rendered text when present and the text
`"No render available"` (so capitalized) when the rendered field is
absent; and the show command never mutates the loop state, in particular
not on an out-of-range index. -/
theorem C5_show_command (st : WatchSt) (i : Nat) :
    (showCommand st.entries i = ShowOutcome.invalidIndex ↔ st.entries.length ≤ i) ∧
    (∀ e r, st.entries[i]? = some e → e.rendered = some r →
      showCommand st.entries i = ShowOutcome.rendered r ∧
        (ShowOutcome.rendered r).text = r) ∧
    (∀ e, st.entries[i]? = some e → e.rendered = none →
      showCommand st.entries i = ShowOutcome.noRender ∧
        ShowOutcome.noRender.text = "No render available") ∧
    (commandStep st (Command.showIdx i)).1 = st := by
  refine ⟨⟨?_, ?_⟩, ?_, ?_, rfl⟩
  · intro h
    by_contra hc
    push_neg at hc
    have he : st.entries[i]? = some st.entries[i] := List.getElem?_eq_getElem hc
    rcases hr : (st.entries[i]).rendered with _ | r <;>
      simp [showCommand, he, hr] at h
  · intro h
    have he : st.entries[i]? = none := List.getElem?_eq_none h
    simp [showCommand, he]
  · intro e r he hr
    exact ⟨by simp [showCommand, he, hr], rfl⟩
  · intro e he hr
    exact ⟨by simp [showCommand, he, hr], rfl⟩

/-- A concrete loop state holding one rendered entry. -/
def watchStEx : WatchSt :=
  { entries := [entryRendered], files := filesEx, quitFlag := false, runCount := 0 }

/-- C5 (witness): index 0 of a one-entry snapshot shows its render, index 3
is invalid, and the show command leaves the state unchanged. -/
theorem C5_show_command_witness :
    showCommand [entryRendered] 0 = ShowOutcome.rendered "RENDER" ∧
    showCommand [entryRendered] 3 = ShowOutcome.invalidIndex ∧
    (commandStep watchStEx (Command.showIdx 3)).1 = watchStEx := by
  have h0 := C5_show_command watchStEx 0
  have h3 := C5_show_command watchStEx 3
  exact ⟨(h0.2.1 entryRendered "RENDER" rfl rfl).1, h3.1.mpr (by decide), h3.2.2.2⟩

/-- C6 (confirmed, with `Message::replacement_span` and
`Span::replace_in_file` spec-modelled): the fix command fails with
invalid-index exactly when the index is out of range (touching nothing);
when the depth-first search of the message at the index and its nested
children finds no span carrying `suggested_replacement`, it fails with
no-replacement-available (touching nothing); when a span is found, the fix
is applied to the filesystem: on success the `fixed` outcome is produced
(the branch that prints "Fixed, recompiling..." — the subsequent re-run is
triggered by the file watcher observing the write), while on failure the
error is reported and the filesystem — hence the idle loop state — is left
unchanged. -/
theorem C6_fix_command (files : String → Option String) (entries : List Entry) (i : Nat) :
    ((fixCommand files entries i).1 = FixResult.invalidIndex ↔ entries.length ≤ i) ∧
    ((fixCommand files entries i).1 = FixResult.invalidIndex →
      (fixCommand files entries i).2 = files) ∧
    (∀ e, entries[i]? = some e → e.message.bind Message.replacement_span = none →
      fixCommand files entries i = (FixResult.noReplacement, files)) ∧
    (∀ e sp, entries[i]? = some e → e.message.bind Message.replacement_span = some sp →
      fixCommand files entries i =
        match fixApplierApply files sp (sp.suggested_replacement.getD "") with
        | .ok files2 => (FixResult.fixed, files2)
        | .error err => (FixResult.applyError err, files)) := by
  refine ⟨⟨?_, ?_⟩, ?_, ?_, ?_⟩
  · intro h
    by_contra hc
    push_neg at hc
    have he : entries[i]? = some entries[i] := List.getElem?_eq_getElem hc
    rcases hrs : entries[i].message.bind Message.replacement_span with _ | sp
    · simp [fixCommand, he, hrs] at h
    · rcases happ : fixApplierApply files sp (sp.suggested_replacement.getD "") with e2 | f2 <;>
        simp [fixCommand, he, hrs, happ] at h
  · intro h
    have he : entries[i]? = none := List.getElem?_eq_none h
    simp [fixCommand, he]
  · intro h
    rcases he : entries[i]? with _ | e
    · simp [fixCommand, he]
    · exfalso
      rcases hrs : e.message.bind Message.replacement_span with _ | sp
      · simp [fixCommand, he, hrs] at h
      · rcases happ : fixApplierApply files sp (sp.suggested_replacement.getD "") with e2 | f2 <;>
          simp [fixCommand, he, hrs, happ] at h
  · intro e he hrs
    simp [fixCommand, he, hrs]
  · intro e sp he hrs
    simp only [fixCommand, he, hrs]

/-- C6 (witness): with one fixable entry, index 0 applies the fix and
splices the replacement into the file, while index 3 is invalid and leaves
the filesystem unchanged. -/
theorem C6_fix_command_witness :
    (fixCommand filesEx [entryFix] 0).1 = FixResult.fixed ∧
    (fixCommand filesEx [entryFix] 0).2 "ex.rs" = some "abXYZfgh" ∧
    (fixCommand filesEx [entryFix] 3).1 = FixResult.invalidIndex ∧
    (fixCommand filesEx [entryFix] 3).2 = filesEx := by
  have h0 := C6_fix_command filesEx [entryFix] 0
  have h3 := C6_fix_command filesEx [entryFix] 3
  have hrs : entryFix.message.bind Message.replacement_span = some spanFix := by
    show Message.replacement_span msgFix = some spanFix
    rw [show msgFix =
        Message.mk "fixable" none Level.error (some [spanFix]) none none from rfl,
      Message.replacement_span]
    rfl
  have hmain := h0.2.2.2 entryFix spanFix rfl hrs
  have hinv : (fixCommand filesEx [entryFix] 3).1 = FixResult.invalidIndex :=
    h3.1.mpr (by decide)
  refine ⟨?_, ?_, hinv, h3.2.1 hinv⟩
  · rw [hmain]
    rfl
  · rw [hmain]
    rfl

/-- The checker's stdout for each run: always the single record `[65]`. -/
def streamsEx : Nat → List Nat := fun _ => encodeRecords [[65]]

/-- The initial loop state of the witness. -/
def watchSt0 : WatchSt :=
  { entries := [], files := filesEx, quitFlag := false, runCount := 0 }

/-- C7 (confirmed): in the single-threaded watch loop, one iteration
factors into the filesystem phase — which, when a write notification was
queued, performs exactly one complete synchronous analysis run and
wholesale-replaces the snapshot — followed by the command phase, which
interprets the (at most one) queued command against the state left by the
completed run; at most one run happens per iteration (`runCount` grows by
at most one), so runs never overlap; and a run consumes the entire decoder
output: on a well-formed stream the new snapshot is the filtered list of
all records' entries and the decoder reaches its end-of-stream state. -/
theorem C7_run_atomicity (parse : List Nat → Option Entry) (streams : Nat → List Nat)
    (color : Bool) (w : Nat) (st : WatchSt) (events : List FsEvent)
    (cmd : Option Command) :
    (watchIter parse streams color w st events cmd =
      match cmd with
      | Option.none => (fsPhase parse streams color w st events, [])
      | Option.some c => commandStep (fsPhase parse streams color w st events) c) ∧
    ((fsPhase parse streams color w st events).entries =
      if events.any FsEvent.isWrite then runAnalysis parse color w (streams st.runCount)
      else st.entries) ∧
    ((fsPhase parse streams color w st events).runCount =
      st.runCount + if events.any FsEvent.isWrite then 1 else 0) ∧
    (∀ rs, (∀ r ∈ rs, r ≠ [] ∧ 10 ∉ r ∧ (parse r).isSome) →
      runAnalysis parse color w (encodeRecords rs) =
        (rs.filterMap fun r => (parse r).map fun e => { e with color := color }).filter
          (fun e => (e.report_width w).isSome) ∧
      (analyzerRun parse color (encodeRecords rs)).2 = DecodeOutcome.finished) := by
  refine ⟨by cases cmd <;> rfl, ?_, ?_, ?_⟩
  · by_cases h : events.any FsEvent.isWrite <;> simp [fsPhase, h]
  · by_cases h : events.any FsEvent.isWrite <;> simp [fsPhase, h]
  · intro rs hrs
    have hc := analyzerRun_cons parse color rs [] hrs
    rw [List.append_nil] at hc
    constructor
    · rw [runAnalysis, hc]
      simp [analyzerRun_nil]
    · rw [hc]
      simp [analyzerRun_nil]

/-- C7 (witness): a queued write notification triggers exactly one run,
and the run on the stream of the single record `[65]` consumes it to
end-of-stream. -/
theorem C7_run_atomicity_witness :
    (fsPhase parseEx streamsEx true 100 watchSt0 [FsEvent.write "src/lib.rs"]).runCount = 1 ∧
    runAnalysis parseEx true 100 (encodeRecords [[65]]) = [] ∧
    (analyzerRun parseEx true (encodeRecords [[65]])).2 = DecodeOutcome.finished := by
  have h := C7_run_atomicity parseEx streamsEx true 100 watchSt0
    [FsEvent.write "src/lib.rs"] none
  have hd := h.2.2.2 [[65]] (by decide)
  refine ⟨?_, ?_, hd.2⟩
  · rw [h.2.2.1]
    rfl
  · rw [hd.1]
    rfl
